import Mathlib

/-!
Verification of the kong-catalog storage/query layer.

The Go code under verification lives in `pkg/models` (the `Store` type with
`ListServices`, `GetService`, `ListVersions`, `CreateService`,
`CreateServiceVersion`), its SQL schema (`schema.sql`), and the HTTP handler
error mapping in `pkg/catalog/handlers`.  The relational backend is modelled
as explicit table states; a query's `ORDER BY` is modelled by sorting with the
corresponding row relation, `WHERE` by filtering, `LIMIT`/`OFFSET` by
`take`/`drop`.  UUIDs are modelled as naturals and timestamps as integers:
both are used only as opaque linearly ordered identifiers/instants.
-/

namespace KongCatalog

/-- A stored row of the `services` table (schema.sql): `id` primary key,
`name`, `description`, `created_at`, `updated_at`. -/
structure ServiceRow where
  id : Nat
  name : String
  description : String
  created_at : Int
  updated_at : Int
deriving DecidableEq

/-- A row of the `service_versions` table, which is also the API record
`ServiceVersion` (part_007 lines 26-31). -/
structure ServiceVersion where
  id : Nat
  service_id : Nat
  version : String
  created_at : Int
deriving DecidableEq

/-- The API record `Service` (part_007 lines 17-24): the five stored columns
plus the transient `versions` collection. -/
structure Service where
  id : Nat
  name : String
  description : String
  created_at : Int
  updated_at : Int
  versions : List ServiceVersion
deriving DecidableEq

/-- Database state: the two tables of schema.sql. -/
structure DB where
  services : List ServiceRow
  service_versions : List ServiceVersion
deriving DecidableEq

/-- ASCII lower-casing of one character, as performed by the backend `LOWER`
on ASCII input and by Go `strings.EqualFold` on ASCII strings. -/
def asciiLower (c : Char) : Char :=
  if 'A' ≤ c ∧ c ≤ 'Z' then Char.ofNat (c.toNat + 32) else c

/-- Lower-cased character sequence of a string. -/
def lowerS (s : String) : List Char := s.data.map asciiLower

/-- All suffixes of a character sequence, longest first. -/
def suffixesOf : List Char → List (List Char)
  | [] => [[]]
  | c :: s => (c :: s) :: suffixesOf s

/-- SQL `LIKE` pattern matching, recursing on the pattern: a percent matches
any sequence (the rest of the pattern must match some suffix of the string),
an underscore matches any single character, a backslash escapes the next
pattern character.  (A pattern ending in a lone backslash is invalid in the
backend; it is unreachable from `listServices`, whose patterns end in a
percent, and is modelled as a non-match.) -/
def likeMatch : List Char → List Char → Bool
  | [], s => s.isEmpty
  | '%' :: p, s => (suffixesOf s).any (fun t => likeMatch p t)
  | '_' :: _, [] => false
  | '_' :: p, _ :: s2 => likeMatch p s2
  | '\\' :: _ :: _, [] => false
  | '\\' :: c2 :: p2, d :: s2 => d == c2 && likeMatch p2 s2
  | '\\' :: [], _ => false
  | _ :: _, [] => false
  | c :: p, d :: s2 => d == c && likeMatch p s2

/-- Lexicographic code-point comparison of two character sequences: the text
ordering used by the backend for `ORDER BY name` (modelled with the byte-wise
`C` collation). -/
def charsLE : List Char → List Char → Bool
  | [], _ => true
  | _ :: _, [] => false
  | a :: as, b :: bs =>
    if a.toNat < b.toNat then true
    else if b.toNat < a.toNat then false
    else charsLE as bs

/-- The resolved `ORDER BY` column of `ListServices`. -/
inductive SortCol where
  | name
  | createdAt
  | updatedAt
deriving DecidableEq

/-- part_007 lines 62-66: the sort key falls back to `name` unless it is
exactly `created_at` or `updated_at`. -/
def resolveSortCol (sortKey : String) : SortCol :=
  match sortKey with
  | "created_at" => SortCol.createdAt
  | "updated_at" => SortCol.updatedAt
  | _ => SortCol.name

/-- part_007 lines 67-70: descending iff the order parameter equals `desc` up
to ASCII case (Go `strings.EqualFold`). -/
def resolveDesc (order : String) : Bool :=
  lowerS order == lowerS "desc"

/-- part_007 lines 59-61: a limit that is non-positive or above the configured
maximum page size is replaced by the maximum page size. -/
def effLimit (limit maxPage : Int) : Int :=
  if limit ≤ 0 ∨ maxPage < limit then maxPage else limit

/-- Lexicographic combination of two non-strict orders: `p` first, `q` as the
tie-break. -/
def lexLE (p q : α → α → Prop) (a b : α) : Prop :=
  p a b ∧ (p b a → q a b)

instance {p q : α → α → Prop} [DecidableRel p] [DecidableRel q] :
    DecidableRel (lexLE p q) := fun a b => by
  unfold lexLE; infer_instance

/-- Comparison of two service rows on the resolved sort column, ascending. -/
def primLE (col : SortCol) (a b : ServiceRow) : Prop :=
  match col with
  | SortCol.name => charsLE a.name.data b.name.data = true
  | SortCol.createdAt => a.created_at ≤ b.created_at
  | SortCol.updatedAt => a.updated_at ≤ b.updated_at

instance (col : SortCol) (a b : ServiceRow) : Decidable (primLE col a b) :=
  match col with
  | SortCol.name => inferInstanceAs (Decidable (charsLE a.name.data b.name.data = true))
  | SortCol.createdAt => inferInstanceAs (Decidable (a.created_at ≤ b.created_at))
  | SortCol.updatedAt => inferInstanceAs (Decidable (a.updated_at ≤ b.updated_at))

/-- `ORDER BY col ASC, id ASC` as a row relation. -/
def rowLEasc (col : SortCol) : ServiceRow → ServiceRow → Prop :=
  lexLE (primLE col) (fun a b => a.id ≤ b.id)

instance (col : SortCol) : DecidableRel (rowLEasc col) :=
  fun a b => by unfold rowLEasc; infer_instance

/-- `ORDER BY col ord, id ord` (part_007 line 89): the tie-break uses the same
direction as the primary sort, so the descending order is the exact reverse of
the ascending one. -/
def rowLE (col : SortCol) (dsc : Bool) (a b : ServiceRow) : Prop :=
  rowLEasc col (cond dsc b a) (cond dsc a b)

instance (col : SortCol) (dsc : Bool) : DecidableRel (rowLE col dsc) :=
  fun a b => by unfold rowLE; infer_instance

/-- `ORDER BY created_at DESC, id DESC`: the version ordering used by
`ListVersions`, by `GetService`, and per service by the batched hydration. -/
def verLE : ServiceVersion → ServiceVersion → Prop :=
  fun a b => lexLE (fun x y => y.created_at ≤ x.created_at)
    (fun x y => y.id ≤ x.id) a b

instance : DecidableRel verLE := fun a b => by unfold verLE; infer_instance

/-- `ORDER BY service_id, created_at DESC, id DESC` (part_007 line 130): the
ordering of the batched child query. -/
def batLE : ServiceVersion → ServiceVersion → Prop :=
  lexLE (fun a b => a.service_id ≤ b.service_id) verLE

instance : DecidableRel batLE := fun a b => by unfold batLE; infer_instance

/-- Scanning a parent row into the API record (versions not yet attached). -/
def rowToService (r : ServiceRow) : Service :=
  { id := r.id, name := r.name, description := r.description,
    created_at := r.created_at, updated_at := r.updated_at, versions := [] }

/-- The search filter `LOWER(name) LIKE LOWER(q) || percent-sign`
(part_007 line 76). -/
def nameMatches (q : String) (r : ServiceRow) : Bool :=
  likeMatch (lowerS q ++ ['%']) (lowerS r.name)

/-- part_007 lines 140-147: one pass over the scanned child rows, appending
each row to the bucket of its `service_id`; a service id absent from the map
yields the empty bucket. -/
def groupByService (vs : List ServiceVersion) : Nat → List ServiceVersion :=
  vs.foldl (fun m v => fun k => if k = v.service_id then m k ++ [v] else m k)
    (fun _ => [])

/-- `ListVersions` (part_007 lines 213-241): the rows whose `service_id`
matches, ordered by `created_at DESC, id DESC`. -/
def listVersions (db : DB) (serviceId : Nat) : List ServiceVersion :=
  List.insertionSort verLE
    (db.service_versions.filter (fun v => v.service_id == serviceId))

/-- The version-attachment block of `ListServices` (part_007 lines 111-165):
when hydration is requested and the page is non-empty, one batched child query
fetches every version of the page's service ids ordered by
`(service_id, created_at DESC, id DESC)`, the rows are grouped by service id
in a single pass, and each service receives its bucket (the empty bucket when
absent); otherwise every service receives the explicit empty sequence. -/
def attachVersions (db : DB) (includeVersions : Bool) (items : List Service) :
    List Service :=
  if includeVersions && !items.isEmpty then
    let serviceIDs := items.map (fun s => s.id)
    let children :=
      db.service_versions.filter (fun v => serviceIDs.contains v.service_id)
    let sortedChildren := List.insertionSort batLE children
    let byService := groupByService sortedChildren
    items.map (fun s => { s with versions := byService s.id })
  else
    items.map (fun s => { s with versions := [] })

/-- `ListServices` (part_007 lines 56-168).  The limit is clamped, the sort
column and direction are resolved, the optional search filter is applied, the
rows are ordered by the resolved column with the id tie-break, the page is cut
with `OFFSET`/`LIMIT`, and versions are attached by `attachVersions`.  A
negative `LIMIT` or `OFFSET` literal is rejected by the backend, modelled as
`Except.error`. -/
def listServices (maxPage : Int) (db : DB) (q sortKey order : String)
    (limit offset : Int) (includeVersions : Bool) :
    Except String (List Service) :=
  let lim := effLimit limit maxPage
  let col := resolveSortCol sortKey
  let dsc := resolveDesc order
  if lim < 0 ∨ offset < 0 then Except.error "ERROR: LIMIT must not be negative"
  else
    let rows := if q = "" then db.services else db.services.filter (nameMatches q)
    let sorted := List.insertionSort (rowLE col dsc) rows
    let items := ((sorted.drop offset.toNat).take lim.toNat).map rowToService
    Except.ok (attachVersions db includeVersions items)

/-- `GetService` (part_007 lines 170-211): the row matching the id, absent as
`none` (never an error for a mere non-match); versions attached the same way
as `ListVersions` when requested, an explicit empty sequence otherwise. -/
def getService (db : DB) (id : Nat) (includeVersions : Bool) : Option Service :=
  match db.services.find? (fun r => r.id == id) with
  | none => none
  | some r =>
    if includeVersions then
      some { rowToService r with
             versions := List.insertionSort verLE
               (db.service_versions.filter (fun v => v.service_id == id)) }
    else
      some { rowToService r with versions := [] }

/-- `CreateService` (part_007 lines 244-250): the candidate's id and both
timestamps are overwritten with freshly generated values before the INSERT;
only `name` and `description` are taken from the candidate. -/
def createServiceRecord (freshId : Nat) (now1 now2 : Int) (c : Service) :
    ServiceRow :=
  { id := freshId, name := c.name, description := c.description,
    created_at := now1, updated_at := now2 }

/-- `CreateServiceVersion` (part_007 lines 253-258): the candidate's id and
creation timestamp are overwritten; only `service_id` and `version` are taken
from the candidate. -/
def createServiceVersionRecord (freshId : Nat) (now : Int) (c : ServiceVersion) :
    ServiceVersion :=
  { id := freshId, service_id := c.service_id, version := c.version,
    created_at := now }

/-- The error text of a backend foreign-key violation, as seen through Go
`err.Error()` (SQLSTATE 23503). -/
def pgFKViolationMsg : String :=
  "ERROR: insert or update on table service_versions violates foreign key constraint (SQLSTATE 23503)"

/-- The error text of a backend unique violation (SQLSTATE 23505). -/
def pgUniqueViolationMsg : String :=
  "ERROR: duplicate key value violates unique constraint (SQLSTATE 23505)"

/-- The INSERT issued by `CreateServiceVersion` against the schema: the
`REFERENCES services(id)` foreign key and the `UNIQUE (service_id, version)`
constraint of schema.sql decide whether the row is stored.  The store code
itself (part_007 lines 253-258) performs no check; failures carry the raw
backend error text. -/
def createServiceVersion (freshId : Nat) (now : Int) (c : ServiceVersion)
    (db : DB) : Except String (DB × ServiceVersion) :=
  let v := createServiceVersionRecord freshId now c
  if db.services.any (fun s => s.id == v.service_id) then
    if db.service_versions.any
        (fun w => w.service_id == v.service_id && w.version == v.version) then
      Except.error pgUniqueViolationMsg
    else
      Except.ok ({ db with service_versions := db.service_versions ++ [v] }, v)
  else
    Except.error pgFKViolationMsg

/-- Go `strings.Contains`. -/
def strContains (s substr : String) : Bool :=
  (List.range (s.data.length + 1)).any
    (fun k => substr.data.isPrefixOf (s.data.drop k))

/-- The handler mapping of a `CreateServiceVersion` failure (part_004 lines
182-190): HTTP 409 with a conflict message when the raw error text contains
`duplicate key`, otherwise a generic HTTP 500. -/
def createVersionFailureResponse (errText : String) : Nat × String :=
  if strContains errText "duplicate key" then
    (409, "Version already exists for this service")
  else
    (500, "Failed to create service version")

/-- The JSON error envelope written by `respondError` (part_004 lines
204-217): the HTTP status, a `message` field, and - when an underlying error
is present - an `error` field holding its raw `err.Error()` text. -/
structure ErrorResponse where
  status : Nat
  fields : List (String × String)
deriving DecidableEq

/-- `respondError` (part_004 lines 204-217). -/
def respondError (statusCode : Nat) (message : String) (err : Option String) :
    ErrorResponse :=
  { status := statusCode,
    fields := [("message", message)] ++
      (match err with
       | some e => [("error", e)]
       | none => []) }

/-- Whether the first character sequence is an initial segment of the
second. -/
def isPrefixList : List Char → List Char → Bool
  | [], _ => true
  | _ :: _, [] => false
  | c :: cs, d :: ds => c == d && isPrefixList cs ds

/-- The specification's notion of the search filter: the name, compared
case-insensitively, starts with the search text.  Stated from the spec's words
(prefix match), for comparison with the implementation's LIKE pattern. -/
def specPrefixMatch (q name : String) : Bool :=
  isPrefixList (lowerS q) (lowerS name)

/-- Page `k` of the paginated listing: `ListServices` called with `limit = P`
and `offset = k * P`, no search text; an error yields the empty page. -/
def pageOf (maxPage : Int) (db : DB) (sortKey order : String)
    (includeVersions : Bool) (P : Int) (k : Nat) : List Service :=
  match listServices maxPage db "" sortKey order P ((k : Int) * P)
      includeVersions with
  | Except.ok l => l
  | Except.error _ => []

theorem lexLE_total {α} {p q : α → α → Prop}
    (hp : ∀ a b, p a b ∨ p b a) (hq : ∀ a b, q a b ∨ q b a) (a b : α) :
    lexLE p q a b ∨ lexLE p q b a := by
  by_cases hab : p a b <;> by_cases hba : p b a
  · rcases hq a b with h | h
    · exact Or.inl ⟨hab, fun _ => h⟩
    · exact Or.inr ⟨hba, fun _ => h⟩
  · exact Or.inl ⟨hab, fun h => absurd h hba⟩
  · exact Or.inr ⟨hba, fun h => absurd h hab⟩
  · rcases hp a b with h | h
    · exact absurd h hab
    · exact absurd h hba

theorem lexLE_trans {α} {p q : α → α → Prop}
    (hp : ∀ {a b c}, p a b → p b c → p a c)
    (hq : ∀ {a b c}, q a b → q b c → q a c)
    {a b c : α} (h1 : lexLE p q a b) (h2 : lexLE p q b c) : lexLE p q a c := by
  refine ⟨hp h1.1 h2.1, fun hca => ?_⟩
  exact hq (h1.2 (hp h2.1 hca)) (h2.2 (hp hca h1.1))

theorem charsLE_total : ∀ as bs : List Char,
    charsLE as bs = true ∨ charsLE bs as = true := by
  intro as
  induction as with
  | nil => intro bs; exact Or.inl rfl
  | cons a as ih =>
    intro bs
    cases bs with
    | nil => exact Or.inr rfl
    | cons b bs =>
      by_cases h1 : a.toNat < b.toNat
      · left; simp [charsLE, h1]
      · by_cases h2 : b.toNat < a.toNat
        · right; simp [charsLE, h2]
        · rcases ih bs with h | h
          · left; simp [charsLE, h1, h2, h]
          · right; simp [charsLE, h1, h2, h]

theorem charsLE_trans : ∀ as bs cs : List Char,
    charsLE as bs = true → charsLE bs cs = true → charsLE as cs = true := by
  intro as
  induction as with
  | nil => intro bs cs _ _; rfl
  | cons a as ih =>
    intro bs cs h1 h2
    cases bs with
    | nil => simp [charsLE] at h1
    | cons b bs =>
      cases cs with
      | nil => simp [charsLE] at h2
      | cons c cs =>
        simp only [charsLE] at h1 h2 ⊢
        split_ifs at h1 h2 ⊢ <;>
          first
          | rfl
          | exact ih bs cs h1 h2
          | omega

theorem primLE_total (col : SortCol) (a b : ServiceRow) :
    primLE col a b ∨ primLE col b a := by
  cases col
  · exact charsLE_total _ _
  · exact le_total _ _
  · exact le_total _ _

theorem primLE_trans {col : SortCol} {a b c : ServiceRow} :
    primLE col a b → primLE col b c → primLE col a c := by
  cases col
  · exact charsLE_trans _ _ _
  · exact le_trans
  · exact le_trans

theorem rowLEasc_total (col : SortCol) (a b : ServiceRow) :
    rowLEasc col a b ∨ rowLEasc col b a :=
  lexLE_total (primLE_total col) (fun x y => Nat.le_total x.id y.id) a b

theorem rowLEasc_trans {col : SortCol} {a b c : ServiceRow}
    (h1 : rowLEasc col a b) (h2 : rowLEasc col b c) : rowLEasc col a c := by
  unfold rowLEasc at h1 h2 ⊢
  exact lexLE_trans (p := primLE col) (q := fun a b => a.id ≤ b.id)
    (fun h h' => primLE_trans h h') (fun h h' => Nat.le_trans h h') h1 h2

instance (col : SortCol) (dsc : Bool) : IsTotal ServiceRow (rowLE col dsc) := by
  constructor
  intro a b
  cases dsc
  · exact rowLEasc_total col a b
  · exact rowLEasc_total col b a

instance (col : SortCol) (dsc : Bool) : IsTrans ServiceRow (rowLE col dsc) := by
  constructor
  intro a b c h1 h2
  cases dsc
  · exact rowLEasc_trans h1 h2
  · exact rowLEasc_trans h2 h1

theorem verLE_total (a b : ServiceVersion) : verLE a b ∨ verLE b a := by
  unfold verLE
  exact lexLE_total (fun x y => Int.le_total y.created_at x.created_at)
    (fun x y => Nat.le_total y.id x.id) a b

theorem verLE_trans {a b c : ServiceVersion} :
    verLE a b → verLE b c → verLE a c := by
  unfold verLE
  exact lexLE_trans (p := fun x y : ServiceVersion => y.created_at ≤ x.created_at)
    (q := fun x y : ServiceVersion => y.id ≤ x.id)
    (fun h h' => Int.le_trans h' h) (fun h h' => Nat.le_trans h' h)

instance : IsTotal ServiceVersion verLE := ⟨verLE_total⟩

instance : IsTrans ServiceVersion verLE := ⟨fun _ _ _ => verLE_trans⟩

theorem batLE_total (a b : ServiceVersion) : batLE a b ∨ batLE b a := by
  unfold batLE
  exact lexLE_total (fun x y => Nat.le_total x.service_id y.service_id)
    verLE_total a b

theorem batLE_trans {a b c : ServiceVersion} :
    batLE a b → batLE b c → batLE a c := by
  unfold batLE
  exact lexLE_trans (p := fun x y : ServiceVersion => x.service_id ≤ y.service_id)
    (q := verLE)
    (fun h h' => Nat.le_trans h h') (fun h h' => verLE_trans h h')

instance : IsTotal ServiceVersion batLE := ⟨batLE_total⟩

instance : IsTrans ServiceVersion batLE := ⟨fun _ _ _ => batLE_trans⟩

theorem verLE_id_eq {a b : ServiceVersion}
    (h1 : verLE a b) (h2 : verLE b a) : a.id = b.id :=
  Nat.le_antisymm (h2.2 h1.1) (h1.2 h2.1)

theorem batLE_iff_verLE {a b : ServiceVersion}
    (h : a.service_id = b.service_id) : batLE a b ↔ verLE a b := by
  constructor
  · intro hb
    exact hb.2 (le_of_eq h.symm)
  · intro hv
    exact ⟨le_of_eq h, fun _ => hv⟩

theorem sorted_perm_eq_of_antisymm_mem {α} {r : α → α → Prop} :
    ∀ {l₁ l₂ : List α}, l₁.Perm l₂ → l₁.Sorted r → l₂.Sorted r →
      (∀ a ∈ l₁, ∀ b ∈ l₁, r a b → r b a → a = b) → l₁ = l₂ := by
  intro l₁
  induction l₁ with
  | nil =>
    intro l₂ hp _ _ _
    exact (hp.symm.eq_nil).symm
  | cons a t ih =>
    intro l₂ hp hs₁ hs₂ has
    cases l₂ with
    | nil => exact absurd hp.eq_nil (List.cons_ne_nil a t)
    | cons b t₂ =>
      have hmem_a : a ∈ b :: t₂ := hp.subset (List.mem_cons_self a t)
      have hmem_b : b ∈ a :: t := hp.symm.subset (List.mem_cons_self b t₂)
      have hab : a = b := by
        rcases List.mem_cons.mp hmem_a with h | ha2
        · exact h
        · rcases List.mem_cons.mp hmem_b with h | hb1
          · exact h.symm
          · exact has a (List.mem_cons_self a t) b (List.mem_cons_of_mem a hb1)
              (List.rel_of_sorted_cons hs₁ b hb1)
              (List.rel_of_sorted_cons hs₂ a ha2)
      subst hab
      have ht : t = t₂ := ih hp.cons_inv hs₁.of_cons hs₂.of_cons
        (fun x hx y hy hxy hyx =>
          has x (List.mem_cons_of_mem a hx) y (List.mem_cons_of_mem a hy) hxy hyx)
      rw [ht]

theorem groupByService_foldl (vs : List ServiceVersion)
    (m : Nat → List ServiceVersion) (k : Nat) :
    (vs.foldl
        (fun m v => fun k => if k = v.service_id then m k ++ [v] else m k) m) k
      = m k ++ vs.filter (fun v => v.service_id == k) := by
  induction vs generalizing m with
  | nil => simp
  | cons v vs ih =>
    rw [List.foldl_cons, ih, List.filter_cons]
    by_cases h : v.service_id = k
    · simp [h]
    · simp [h, Ne.symm h]

theorem groupByService_eq_filter (vs : List ServiceVersion) (k : Nat) :
    groupByService vs k = vs.filter (fun v => v.service_id == k) := by
  unfold groupByService
  rw [groupByService_foldl]
  simp

theorem attachVersions_length (db : DB) (hv : Bool) (items : List Service) :
    (attachVersions db hv items).length = items.length := by
  unfold attachVersions
  split <;> rw [List.length_map]

theorem attachVersions_map_id (db : DB) (hv : Bool) (items : List Service) :
    (attachVersions db hv items).map (fun s => s.id)
      = items.map (fun s => s.id) := by
  unfold attachVersions
  split <;> rw [List.map_map] <;> rfl

/-- C10: `CreateService` overwrites the candidate's identifier and both
timestamps, and `CreateServiceVersion` overwrites the candidate's identifier
and creation timestamp, with the freshly generated values of the call,
regardless of what the caller supplied; the remaining fields (name and
description for a Service; service_id and version for a ServiceVersion) are
stored exactly as supplied. -/
theorem create_overwrites_generated_fields
    (freshId : Nat) (t1 t2 : Int) (c : Service)
    (freshId2 : Nat) (t3 : Int) (cv : ServiceVersion) :
    (createServiceRecord freshId t1 t2 c).id = freshId ∧
    (createServiceRecord freshId t1 t2 c).created_at = t1 ∧
    (createServiceRecord freshId t1 t2 c).updated_at = t2 ∧
    (createServiceRecord freshId t1 t2 c).name = c.name ∧
    (createServiceRecord freshId t1 t2 c).description = c.description ∧
    (createServiceVersionRecord freshId2 t3 cv).id = freshId2 ∧
    (createServiceVersionRecord freshId2 t3 cv).created_at = t3 ∧
    (createServiceVersionRecord freshId2 t3 cv).service_id = cv.service_id ∧
    (createServiceVersionRecord freshId2 t3 cv).version = cv.version :=
  ⟨rfl, rfl, rfl, rfl, rfl, rfl, rfl, rfl, rfl⟩

/-- C8: for an identifier matching no stored Service, `GetService` returns the
absent result (`none`), not an error. -/
theorem getService_absent_of_no_match (db : DB) (i : Nat) (hv : Bool)
    (h : ∀ r ∈ db.services, r.id ≠ i) :
    getService db i hv = none := by
  unfold getService
  have hf : db.services.find? (fun r => r.id == i) = none := by
    apply List.find?_eq_none.mpr
    intro r hr
    simp [h r hr]
  rw [hf]

/-- Witness for C8 at a concrete store: id 2 matches no stored service. -/
theorem getService_absent_of_no_match_witness :
    getService ⟨[⟨1, "a", "", 0, 0⟩], []⟩ 2 true = none :=
  getService_absent_of_no_match ⟨[⟨1, "a", "", 0, 0⟩], []⟩ 2 true (by decide)

/-- C6: the sort column resolves to the sort key for `name`, `created_at`,
`updated_at` and falls back to `name` for any other value, never an error; the
direction is descending exactly when the order parameter equals `desc`
case-insensitively; in particular listing with sort key `bogus` returns the
same sequence as listing with sort key `name`. -/
theorem listServices_sort_resolution :
    (resolveSortCol "name" = SortCol.name ∧
      resolveSortCol "created_at" = SortCol.createdAt ∧
      resolveSortCol "updated_at" = SortCol.updatedAt) ∧
    (∀ sortKey : String, sortKey ≠ "created_at" → sortKey ≠ "updated_at" →
      resolveSortCol sortKey = SortCol.name) ∧
    (∀ order : String, resolveDesc order = true ↔ lowerS order = lowerS "desc") ∧
    (∀ (maxPage : Int) (db : DB) (q order : String) (limit offset : Int)
        (hv : Bool),
      listServices maxPage db q "bogus" order limit offset hv =
        listServices maxPage db q "name" order limit offset hv) := by
  refine ⟨⟨rfl, rfl, rfl⟩, ?_, ?_, ?_⟩
  · intro sk h1 h2
    unfold resolveSortCol
    split
    · exact absurd rfl h1
    · exact absurd rfl h2
    · rfl
  · intro ord
    exact beq_iff_eq
  · intro mp db q ord l o hv
    rfl

/-- Witness for C6: the unrecognized key `bogus` resolves to `name`. -/
theorem listServices_sort_resolution_witness :
    resolveSortCol "bogus" = SortCol.name :=
  listServices_sort_resolution.2.1 "bogus" (by decide) (by decide)

/-- C7: a limit that is non-positive or above the configured maximum page size
is clamped to the maximum page size; the call does not error, and the returned
sequence is never longer than the effective (post-clamp) limit. -/
theorem listServices_limit_clamp
    (maxPage limit offset : Int) (db : DB) (q sortKey order : String)
    (hv : Bool) (hmp : 1 ≤ maxPage) (hoff : 0 ≤ offset) :
    ((limit ≤ 0 ∨ maxPage < limit) → effLimit limit maxPage = maxPage) ∧
    ∃ l, listServices maxPage db q sortKey order limit offset hv = Except.ok l ∧
      (l.length : Int) ≤ effLimit limit maxPage := by
  have hlim : 1 ≤ effLimit limit maxPage := by
    unfold effLimit
    split
    · exact hmp
    · omega
  constructor
  · intro h
    unfold effLimit
    rw [if_pos h]
  · simp only [listServices]
    rw [if_neg (by omega)]
    refine ⟨_, rfl, ?_⟩
    rw [attachVersions_length, List.length_map, List.length_take]
    omega

/-- Witness for C7: limit 100000 with maximum page size 2 returns at most 2
services. -/
theorem listServices_limit_clamp_witness :
    ((100000 : Int) ≤ 0 ∨ (2 : Int) < 100000 → effLimit 100000 2 = 2) ∧
    ∃ l, listServices 2 ⟨[⟨1, "a", "", 0, 0⟩, ⟨2, "b", "", 0, 0⟩,
        ⟨3, "c", "", 0, 0⟩], []⟩ "" "" "" 100000 0 false = Except.ok l ∧
      (l.length : Int) ≤ effLimit 100000 2 :=
  listServices_limit_clamp 2 100000 0 ⟨[⟨1, "a", "", 0, 0⟩, ⟨2, "b", "", 0, 0⟩,
    ⟨3, "c", "", 0, 0⟩], []⟩ "" "" "" false (by decide) (by decide)

/-- C4 as stated is false at this input: a `CreateServiceVersion` whose
`service_id` (here 1) references no Service fails with the foreign-key
violation and stores nothing, but the handler's visible outcome is the generic
HTTP 500 failure - identical to the outcome for an arbitrary store error - so
no `OrphanReference` kind distinguishable by the caller exists. -/
theorem createServiceVersion_orphan_cex :
    createServiceVersion 7 0 ⟨0, 1, "1.0.0", 5⟩ ⟨[], []⟩ =
      Except.error pgFKViolationMsg ∧
    createVersionFailureResponse pgFKViolationMsg =
      (500, "Failed to create service version") ∧
    createVersionFailureResponse pgFKViolationMsg =
      createVersionFailureResponse "dial tcp: connection refused" :=
  ⟨rfl, by decide, by decide⟩

/-- C4 amended: for every candidate whose `service_id` references no stored
Service, `CreateServiceVersion` fails with the foreign-key violation (no
ServiceVersion is stored), and the handler surfaces the failure as the
generic HTTP 500 response, not as a distinguishable referential-integrity
kind; only duplicate-key failures are specially distinguished. -/
theorem createServiceVersion_orphan
    (freshId : Nat) (now : Int) (c : ServiceVersion) (db : DB)
    (h : ∀ r ∈ db.services, r.id ≠ c.service_id) :
    createServiceVersion freshId now c db = Except.error pgFKViolationMsg ∧
    createVersionFailureResponse pgFKViolationMsg =
      (500, "Failed to create service version") := by
  constructor
  · simp only [createServiceVersion, createServiceVersionRecord]
    have hfalse : db.services.any (fun s => s.id == c.service_id) = false := by
      rw [List.any_eq_false]
      intro s hs
      simpa using h s hs
    rw [if_neg (by simp [hfalse])]
  · decide

/-- Witness for the amended C4 at a non-empty store whose only service id, 7,
differs from the candidate's service_id 42. -/
theorem createServiceVersion_orphan_witness :
    createServiceVersion 9 3 ⟨0, 42, "2.0.0", 0⟩ ⟨[⟨7, "x", "", 0, 0⟩], []⟩ =
      Except.error pgFKViolationMsg ∧
    createVersionFailureResponse pgFKViolationMsg =
      (500, "Failed to create service version") :=
  createServiceVersion_orphan 9 3 ⟨0, 42, "2.0.0", 0⟩ ⟨[⟨7, "x", "", 0, 0⟩], []⟩
    (by decide)

/-- C5 as stated is false at this input: the user-visible failure envelope
embeds the raw store error text in its `error` field - exactly the
backend-internal detail the claim rules out. -/
theorem respondError_leaks_raw_error_cex :
    ("error", pgFKViolationMsg) ∈
      (respondError 500 "Failed to create service version"
        (some pgFKViolationMsg)).fields := by
  simp [respondError]

/-- C5 amended: every failure response carries the HTTP status code (the
machine-distinguishable part) and a short `message` field; when an underlying
error is present its raw text is additionally exposed in an `error` field, so
backend-internal detail is included rather than withheld. -/
theorem respondError_envelope (statusCode : Nat) (message : String)
    (err : Option String) :
    (respondError statusCode message err).status = statusCode ∧
    ("message", message) ∈ (respondError statusCode message err).fields ∧
    (∀ e, err = some e →
      ("error", e) ∈ (respondError statusCode message err).fields) ∧
    (err = none →
      (respondError statusCode message err).fields = [("message", message)]) := by
  refine ⟨rfl, by simp [respondError], ?_, ?_⟩
  · intro e he
    subst he
    simp [respondError]
  · intro he
    subst he
    rfl

/-- Witness for the amended C5: a listing failure with a raw backend error
exposes that error's text in the response body. -/
theorem respondError_envelope_witness :
    ("error", "pq: connection refused") ∈
      (respondError 500 "Failed to list services"
        (some "pq: connection refused")).fields :=
  (respondError_envelope 500 "Failed to list services"
    (some "pq: connection refused")).2.2.1 "pq: connection refused" rfl

theorem likeMatch_percent (s : List Char) : likeMatch ['%'] s = true := by
  induction s with
  | nil => rfl
  | cons d s ih =>
    rw [likeMatch.eq_2]
    have ihx : (suffixesOf s).any (fun t => likeMatch [] t) = true := by
      rw [← likeMatch.eq_2]
      exact ih
    show ((d :: s) :: suffixesOf s).any (fun t => likeMatch [] t) = true
    rw [List.any_cons, ihx, Bool.or_true]

theorem likeMatch_literal_percent (cs : List Char)
    (hcs : ∀ c ∈ cs, c ≠ '%' ∧ c ≠ '_' ∧ c ≠ '\\') :
    ∀ s : List Char, likeMatch (cs ++ ['%']) s = isPrefixList cs s := by
  induction cs with
  | nil =>
    intro s
    rw [List.nil_append, likeMatch_percent]
    rfl
  | cons c cs ih =>
    intro s
    obtain ⟨h1, h2, h3⟩ := hcs c (List.mem_cons_self c cs)
    have ih2 := ih (fun x hx => hcs x (List.mem_cons_of_mem c hx))
    cases s with
    | nil =>
      rw [List.cons_append,
        likeMatch.eq_8 c (cs ++ ['%']) h1 h2 (fun _ _ hc _ => h3 hc)
          (fun hc _ => h3 hc)]
      rfl
    | cons d s =>
      rw [List.cons_append,
        likeMatch.eq_9 c (cs ++ ['%']) d s h1 h2 (fun _ _ hc _ => h3 hc)
          (fun hc _ => h3 hc),
        ih2 s, isPrefixList.eq_3]
      by_cases hdc : d = c
      · subst hdc
        simp
      · have e1 : (d == c) = false := by simpa using hdc
        have e2 : (c == d) = false := by simpa using (Ne.symm hdc)
        rw [e1, e2]

theorem nameMatches_eq_spec (q : String) (r : ServiceRow)
    (hq : ∀ c ∈ lowerS q, c ≠ '%' ∧ c ≠ '_' ∧ c ≠ '\\') :
    nameMatches q r = specPrefixMatch q r.name := by
  unfold nameMatches specPrefixMatch
  exact likeMatch_literal_percent (lowerS q) hq (lowerS r.name)

/-- C2 as stated is false at this input: the search text is pasted into the
LIKE pattern unescaped, so the search text consisting of the single percent
character matches every stored name; `api-service` is returned although its
name does not start with a percent character. -/
theorem listServices_wildcard_search_cex :
    listServices 10 ⟨[⟨1, "api-service", "", 0, 0⟩], []⟩ "%" "" "" 10 0 false =
      Except.ok [⟨1, "api-service", "", 0, 0, []⟩] ∧
    specPrefixMatch "%" "api-service" = false :=
  ⟨rfl, rfl⟩

/-- C2 amended: for a search text free of the LIKE metacharacters (percent,
underscore, backslash), an un-truncated listing returns exactly the stored
services whose name, compared case-insensitively, starts with the search text;
the empty search text matches every name, so it applies no filter. -/
theorem listServices_prefix_search
    (maxPage : Int) (db : DB) (q sortKey order : String) (hv : Bool)
    (hmp : 1 ≤ maxPage) (hN : (db.services.length : Int) ≤ maxPage)
    (hq : ∀ c ∈ lowerS q, c ≠ '%' ∧ c ≠ '_' ∧ c ≠ '\\') :
    ∃ l, listServices maxPage db q sortKey order maxPage 0 hv = Except.ok l ∧
      (l.map (fun s => s.id)).Perm
        ((db.services.filter (fun r => specPrefixMatch q r.name)).map
          (fun r => r.id)) := by
  have heff : effLimit maxPage maxPage = maxPage := by
    unfold effLimit
    rw [if_neg (by omega)]
  have hrows : (if q = "" then db.services
        else db.services.filter (nameMatches q))
      = db.services.filter (fun r => specPrefixMatch q r.name) := by
    split
    · rename_i hq0
      subst hq0
      symm
      apply List.filter_eq_self.mpr
      intro r _
      rfl
    · apply List.filter_congr
      intro r _
      exact nameMatches_eq_spec q r hq
  simp only [listServices, heff]
  rw [if_neg (by omega), hrows]
  have hlen : (List.insertionSort (rowLE (resolveSortCol sortKey)
        (resolveDesc order))
        (db.services.filter (fun r => specPrefixMatch q r.name))).length
      ≤ maxPage.toNat := by
    rw [List.length_insertionSort]
    have := List.length_filter_le (fun r => specPrefixMatch q r.name) db.services
    omega
  rw [show ((0 : Int).toNat) = 0 from rfl, List.drop_zero,
    List.take_of_length_le hlen]
  refine ⟨_, rfl, ?_⟩
  have hperm := List.perm_insertionSort
    (rowLE (resolveSortCol sortKey) (resolveDesc order))
    (db.services.filter (fun r => specPrefixMatch q r.name))
  rw [attachVersions_map_id, List.map_map]
  exact hperm.map (fun r => r.id)

/-- Witness for the amended C2 (the spec's own example): searching `AUTH`
among `api-service`, `database-service`, `auth-service` returns exactly
`auth-service`, case-insensitively. -/
theorem listServices_prefix_search_witness :
    ∃ l, listServices 10 ⟨[⟨1, "api-service", "", 0, 0⟩,
        ⟨2, "database-service", "", 0, 0⟩, ⟨3, "auth-service", "", 0, 0⟩], []⟩
        "AUTH" "" "" 10 0 false = Except.ok l ∧
      (l.map (fun s => s.id)).Perm
        (((⟨[⟨1, "api-service", "", 0, 0⟩, ⟨2, "database-service", "", 0, 0⟩,
            ⟨3, "auth-service", "", 0, 0⟩], []⟩ : DB).services.filter
          (fun r => specPrefixMatch "AUTH" r.name)).map (fun r => r.id)) :=
  listServices_prefix_search 10 ⟨[⟨1, "api-service", "", 0, 0⟩,
      ⟨2, "database-service", "", 0, 0⟩, ⟨3, "auth-service", "", 0, 0⟩], []⟩
    "AUTH" "" "" false (by decide) (by decide) (by decide)

/-- C9: `ListVersions` returns exactly the versions owned by the given
service id, ordered newest first - strictly by creation time descending with
ties broken by identifier descending - and, under the schema's referential
integrity, returns the empty sequence for a serviceId matching no Service,
indistinguishable from a service that owns no versions. -/
theorem listVersions_spec (db : DB) (i : Nat)
    (hnd : (db.service_versions.map (fun v => v.id)).Nodup)
    (hri : ∀ v ∈ db.service_versions, ∃ r ∈ db.services, r.id = v.service_id) :
    (∀ v, v ∈ listVersions db i ↔ v ∈ db.service_versions ∧ v.service_id = i) ∧
    (listVersions db i).Pairwise (fun a b =>
      b.created_at < a.created_at ∨
        (b.created_at = a.created_at ∧ b.id < a.id)) ∧
    ((∀ r ∈ db.services, r.id ≠ i) → listVersions db i = []) := by
  refine ⟨?_, ?_, ?_⟩
  · intro v
    unfold listVersions
    rw [List.mem_insertionSort, List.mem_filter]
    simp
  · have hsorted : (listVersions db i).Pairwise verLE :=
      List.sorted_insertionSort verLE _
    have hsub : (db.service_versions.filter
        (fun v => v.service_id == i)).Sublist db.service_versions :=
      List.filter_sublist _
    have hnd2 : ((db.service_versions.filter
        (fun v => v.service_id == i)).map (fun v => v.id)).Nodup :=
      (hsub.map (fun v => v.id)).nodup hnd
    have hperm := List.perm_insertionSort verLE
      (db.service_versions.filter (fun v => v.service_id == i))
    have hnd3 : ((listVersions db i).map (fun v => v.id)).Nodup := by
      unfold listVersions
      exact ((hperm.map (fun v => v.id)).nodup_iff).mpr hnd2
    have hpne : (listVersions db i).Pairwise (fun a b => a.id ≠ b.id) :=
      List.pairwise_map.mp hnd3
    refine (hsorted.and hpne).imp ?_
    intro a b hab
    obtain ⟨⟨h1, h2⟩, hne⟩ := hab
    by_cases heq : b.created_at = a.created_at
    · right
      refine ⟨heq, lt_of_le_of_ne (h2 (le_of_eq heq.symm)) (fun e => hne e.symm)⟩
    · left
      exact lt_of_le_of_ne h1 heq
  · intro h
    unfold listVersions
    have hfil : db.service_versions.filter (fun v => v.service_id == i) = [] := by
      rw [List.filter_eq_nil_iff]
      intro v hv
      obtain ⟨r, hr, hrid⟩ := hri v hv
      simp only [beq_iff_eq]
      intro hvi
      exact h r hr (by rw [hrid, hvi])
    rw [hfil]
    rfl

/-- Witness for C9: a serviceId (99) matching no service yields the empty
sequence. -/
theorem listVersions_spec_witness :
    listVersions ⟨[⟨1, "a", "", 0, 0⟩], [⟨11, 1, "1.0.0", 1⟩]⟩ 99 = [] :=
  (listVersions_spec ⟨[⟨1, "a", "", 0, 0⟩], [⟨11, 1, "1.0.0", 1⟩]⟩ 99
    (by decide) (by decide)).2.2 (by decide)

theorem batched_group_eq_listVersions (db : DB) (ids : List Nat) (i : Nat)
    (hnd : (db.service_versions.map (fun v => v.id)).Nodup)
    (hmem : ids.contains i = true) :
    groupByService (List.insertionSort batLE
        (db.service_versions.filter (fun v => ids.contains v.service_id))) i
      = listVersions db i := by
  rw [groupByService_eq_filter]
  have hsorted : (List.insertionSort batLE
      (db.service_versions.filter
        (fun v => ids.contains v.service_id))).Pairwise batLE :=
    List.sorted_insertionSort batLE _
  have hL : ((List.insertionSort batLE
      (db.service_versions.filter (fun v => ids.contains v.service_id))).filter
        (fun v => v.service_id == i)).Pairwise verLE := by
    refine List.Pairwise.imp_of_mem ?_ (hsorted.filter _)
    intro a b ha hb hab
    have hai : a.service_id = i := by simpa using (List.mem_filter.mp ha).2
    have hbi : b.service_id = i := by simpa using (List.mem_filter.mp hb).2
    exact (batLE_iff_verLE (by rw [hai, hbi])).mp hab
  have hR : (listVersions db i).Pairwise verLE :=
    List.sorted_insertionSort verLE _
  have hchild : (db.service_versions.filter
        (fun v => ids.contains v.service_id)).filter
        (fun v => v.service_id == i)
      = db.service_versions.filter (fun v => v.service_id == i) := by
    rw [List.filter_filter]
    apply List.filter_congr
    intro v _
    by_cases hvi : v.service_id = i
    · have hiin : i ∈ ids := by simpa using hmem
      simp [hvi, hiin]
    · simp [hvi]
  have hperm : ((List.insertionSort batLE
      (db.service_versions.filter (fun v => ids.contains v.service_id))).filter
        (fun v => v.service_id == i)).Perm
      (db.service_versions.filter (fun v => v.service_id == i)) := by
    have hp2 := (List.perm_insertionSort batLE
      (db.service_versions.filter
        (fun v => ids.contains v.service_id))).filter
      (fun v => v.service_id == i)
    rw [hchild] at hp2
    exact hp2
  have hperm2 : ((List.insertionSort batLE
      (db.service_versions.filter (fun v => ids.contains v.service_id))).filter
        (fun v => v.service_id == i)).Perm (listVersions db i) := by
    unfold listVersions
    exact hperm.trans (List.perm_insertionSort verLE _).symm
  apply sorted_perm_eq_of_antisymm_mem hperm2 hL hR
  intro a ha b hb hab hba
  have haid := verLE_id_eq hab hba
  have ha2 : a ∈ db.service_versions := by
    have h1 := (List.mem_filter.mp ha).1
    rw [List.mem_insertionSort] at h1
    exact (List.mem_filter.mp h1).1
  have hb2 : b ∈ db.service_versions := by
    have h1 := (List.mem_filter.mp hb).1
    rw [List.mem_insertionSort] at h1
    exact (List.mem_filter.mp h1).1
  exact List.inj_on_of_nodup_map hnd ha2 hb2 haid

theorem attachVersions_spec (db : DB) (hv : Bool) (items : List Service)
    (hnd : (db.service_versions.map (fun v => v.id)).Nodup) :
    ∀ s ∈ attachVersions db hv items,
      s.versions = if hv then listVersions db s.id else [] := by
  unfold attachVersions
  split
  · rename_i hcond
    have hhv : hv = true := by
      revert hcond
      cases hv <;> simp
    intro s hs
    obtain ⟨it, hit, rfl⟩ := List.mem_map.mp hs
    rw [hhv, if_pos rfl]
    show groupByService _ it.id = _
    apply batched_group_eq_listVersions db _ it.id hnd
    have hin : it.id ∈ items.map (fun s => s.id) := List.mem_map_of_mem _ hit
    simpa using hin
  · rename_i hcond
    intro s hs
    obtain ⟨it, hit, rfl⟩ := List.mem_map.mp hs
    cases hhv : hv
    · rw [if_neg (by simp)]
    · exfalso
      rw [hhv] at hcond
      have hemp : items.isEmpty = true := by
        revert hcond
        cases h : items.isEmpty <;> simp_all
      rw [List.isEmpty_iff] at hemp
      rw [hemp] at hit
      cases hit

/-- C3: in every `ListServices` result, the versions field of each returned
service is determined by the hydration flag alone: when false it is the
explicit empty sequence even when child rows exist; when true it equals the
sequence `ListVersions` returns for that service (newest first), which is the
explicit empty sequence for a service owning no versions. -/
theorem listServices_hydration
    (maxPage : Int) (db : DB) (q sortKey order : String) (limit offset : Int)
    (hv : Bool) (l : List Service)
    (hnd : (db.service_versions.map (fun v => v.id)).Nodup)
    (hok : listServices maxPage db q sortKey order limit offset hv =
      Except.ok l) :
    ∀ s ∈ l, s.versions = if hv then listVersions db s.id else [] := by
  simp only [listServices] at hok
  by_cases hguard : effLimit limit maxPage < 0 ∨ offset < 0
  · rw [if_pos hguard] at hok
    cases hok
  rw [if_neg hguard] at hok
  have hl := Except.ok.inj hok
  subst hl
  exact attachVersions_spec db hv _ hnd

/-- Witness for C3: in a hydrated listing over a store where service 1 owns
two versions, the returned record for service 1 carries exactly its
ListVersions sequence, newest first. -/
theorem listServices_hydration_witness :
    Service.versions
        ⟨1, "a", "", 0, 0, [⟨12, 1, "1.1.0", 2⟩, ⟨11, 1, "1.0.0", 1⟩]⟩
      = if true then
        listVersions ⟨[⟨1, "a", "", 0, 0⟩, ⟨2, "b", "", 0, 0⟩],
          [⟨11, 1, "1.0.0", 1⟩, ⟨12, 1, "1.1.0", 2⟩]⟩ 1 else [] :=
  listServices_hydration 10
    ⟨[⟨1, "a", "", 0, 0⟩, ⟨2, "b", "", 0, 0⟩],
      [⟨11, 1, "1.0.0", 1⟩, ⟨12, 1, "1.1.0", 2⟩]⟩
    "" "" "" 10 0 true
    [⟨1, "a", "", 0, 0, [⟨12, 1, "1.1.0", 2⟩, ⟨11, 1, "1.0.0", 1⟩]⟩,
      ⟨2, "b", "", 0, 0, []⟩]
    (by decide) rfl
    ⟨1, "a", "", 0, 0, [⟨12, 1, "1.1.0", 2⟩, ⟨11, 1, "1.0.0", 1⟩]⟩
    (by decide)

theorem chunks_exists {α : Type} (P : Nat) (hP : 1 ≤ P) :
    ∀ (n : Nat) (L : List α), L.length ≤ n →
      ∃ K : Nat,
        (List.range K).flatMap (fun k => (L.drop (k * P)).take P) = L ∧
        L.length ≤ K * P ∧
        (∀ k, k < K → (L.drop (k * P)).take P ≠ []) := by
  intro n
  induction n with
  | zero =>
    intro L hL
    have hnil : L = [] := List.length_eq_zero.mp (Nat.le_zero.mp hL)
    subst hnil
    refine ⟨0, by simp, by simp, ?_⟩
    intro k hk
    omega
  | succ n ih =>
    intro L hL
    by_cases hnil : L = []
    · subst hnil
      refine ⟨0, by simp, by simp, ?_⟩
      intro k hk
      omega
    · have hpos : 0 < L.length := List.length_pos.mpr hnil
      obtain ⟨K, hcov, hlen, hne⟩ := ih (L.drop P)
        (by rw [List.length_drop]; omega)
      refine ⟨K + 1, ?_, ?_, ?_⟩
      · rw [List.range_succ_eq_map, List.flatMap_cons, List.flatMap_map]
        show (L.drop (0 * P)).take P ++
            (List.range K).flatMap (fun a => (L.drop ((a + 1) * P)).take P) = L
        rw [Nat.zero_mul, List.drop_zero]
        have e2 : (fun a : Nat => (L.drop ((a + 1) * P)).take P)
            = (fun a : Nat => (((L.drop P).drop (a * P)).take P)) := by
          funext a
          rw [show (a + 1) * P = P + a * P from by ring, ← List.drop_drop]
        rw [e2, hcov, List.take_append_drop]
      · have hKP : (K + 1) * P = K * P + P := Nat.succ_mul K P
        rw [List.length_drop] at hlen
        omega
      · intro k hk
        cases k with
        | zero =>
          simp only [Nat.zero_mul, List.drop_zero]
          intro htake
          rw [List.take_eq_nil_iff] at htake
          rcases htake with h | h
          · omega
          · exact hnil h
        | succ k =>
          rw [show (k + 1) * P = P + k * P from by ring, ← List.drop_drop]
          exact hne k (by omega)

/-- C1 as stated is false at this input: with configured maximum page size 1
and requested page size P = 2 (clamped to 1), the page at offset 0 returns one
service and the page at offset 2 is already empty, so walking in steps of P
until an empty page sees only one of the two stored identifiers. -/
theorem listServices_pagination_cex :
    listServices 1 ⟨[⟨1, "a", "", 0, 0⟩, ⟨2, "b", "", 0, 0⟩], []⟩
        "" "" "" 2 0 false = Except.ok [⟨1, "a", "", 0, 0, []⟩] ∧
    listServices 1 ⟨[⟨1, "a", "", 0, 0⟩, ⟨2, "b", "", 0, 0⟩], []⟩
        "" "" "" 2 2 false = Except.ok [] ∧
    ¬ (([⟨1, "a", "", 0, 0, []⟩] : List Service).map (fun s => s.id)).Perm
        (([⟨1, "a", "", 0, 0⟩, ⟨2, "b", "", 0, 0⟩] : List ServiceRow).map
          (fun r => r.id)) :=
  ⟨rfl, rfl, fun h => by simpa using h.length_eq⟩

/-- C1 amended (page size bounded by the configured maximum): for N stored
services and page size 1 ≤ P ≤ maxPage, the pages at offsets 0, P, 2P, ... are
non-empty up to some K, every later page is the empty sequence (returned
without error), and the concatenation of the K non-empty pages yields exactly
the N stored identifiers, with no duplicates and no omissions - the listing
being totally ordered by the resolved sort column and then by identifier. -/
theorem listServices_pagination_complete
    (maxPage P : Int) (db : DB) (sortKey order : String) (hv : Bool)
    (hP : 1 ≤ P) (hPm : P ≤ maxPage)
    (hnd : (db.services.map (fun r => r.id)).Nodup) :
    ∃ K : Nat,
      (∀ k : Nat, K ≤ k →
        listServices maxPage db "" sortKey order P ((k : Int) * P) hv =
          Except.ok []) ∧
      (∀ k : Nat, k < K → pageOf maxPage db sortKey order hv P k ≠ []) ∧
      ((List.range K).flatMap
          (fun k => (pageOf maxPage db sortKey order hv P k).map
            (fun s => s.id))).Perm (db.services.map (fun r => r.id)) ∧
      ((List.range K).flatMap
          (fun k => (pageOf maxPage db sortKey order hv P k).map
            (fun s => s.id))).Nodup := by
  have hP0 : (0 : Int) ≤ P := by omega
  have heff : effLimit P maxPage = P := by
    unfold effLimit
    rw [if_neg (by omega)]
  set L := List.insertionSort (rowLE (resolveSortCol sortKey)
    (resolveDesc order)) db.services with hLdef
  obtain ⟨K, hcov, hlen, hne⟩ := chunks_exists P.toNat (by omega) L.length L le_rfl
  have hpage : ∀ k : Nat,
      listServices maxPage db "" sortKey order P ((k : Int) * P) hv
        = Except.ok (attachVersions db hv
            (((L.drop (k * P.toNat)).take P.toNat).map rowToService)) := by
    intro k
    have hoff0 : (0 : Int) ≤ (k : Int) * P :=
      mul_nonneg (Int.natCast_nonneg k) hP0
    have hPn : ((k : Int) * P).toNat = k * P.toNat := by
      have h1 : (k : Int) * P = ((k * P.toNat : Nat) : Int) := by
        push_cast
        rw [Int.toNat_of_nonneg hP0]
      rw [h1, Int.toNat_ofNat]
    simp only [listServices, heff]
    rw [if_neg (by omega), if_pos trivial, hPn, ← hLdef]
  have hperm : L.Perm db.services := by
    rw [hLdef]
    exact List.perm_insertionSort _ _
  have hattnil : attachVersions db hv ([] : List Service) = [] := by
    have h0 := attachVersions_length db hv []
    exact List.length_eq_zero.mp (by simpa using h0)
  have hpg : ∀ k : Nat,
      (pageOf maxPage db sortKey order hv P k).map (fun s => s.id)
        = ((L.drop (k * P.toNat)).take P.toNat).map (fun r => r.id) := by
    intro k
    unfold pageOf
    rw [hpage k]
    show (attachVersions db hv (((L.drop (k * P.toNat)).take
      P.toNat).map rowToService)).map (fun s => s.id) = _
    rw [attachVersions_map_id, List.map_map]
    rfl
  have hconcat : (List.range K).flatMap
      (fun k => (pageOf maxPage db sortKey order hv P k).map (fun s => s.id))
      = L.map (fun r => r.id) := by
    rw [show (fun k => (pageOf maxPage db sortKey order hv P k).map
        (fun s => s.id))
      = (fun k => ((L.drop (k * P.toNat)).take P.toNat).map (fun r => r.id))
      from funext hpg]
    rw [← List.map_flatMap, hcov]
  have hconcatperm : ((List.range K).flatMap
      (fun k => (pageOf maxPage db sortKey order hv P k).map
        (fun s => s.id))).Perm (db.services.map (fun r => r.id)) := by
    rw [hconcat]
    exact hperm.map (fun r => r.id)
  refine ⟨K, ?_, ?_, hconcatperm, (hconcatperm.nodup_iff).mpr hnd⟩
  · intro k hk
    rw [hpage k]
    have hdropnil : L.drop (k * P.toNat) = [] := by
      rw [List.drop_eq_nil_iff]
      calc L.length ≤ K * P.toNat := hlen
        _ ≤ k * P.toNat := Nat.mul_le_mul_right _ hk
    rw [hdropnil, List.take_nil, List.map_nil, hattnil]
  · intro k hk
    unfold pageOf
    rw [hpage k]
    show attachVersions db hv (((L.drop (k * P.toNat)).take
      P.toNat).map rowToService) ≠ []
    intro hcontra
    have h0 := attachVersions_length db hv
      (((L.drop (k * P.toNat)).take P.toNat).map rowToService)
    rw [hcontra] at h0
    simp only [List.length_nil, List.length_map] at h0
    exact hne k hk (List.length_eq_zero.mp h0.symm)

/-- Witness for the amended C1: three stored services walked with page size 2
and maximum page size 2. -/
theorem listServices_pagination_complete_witness :
    ∃ K : Nat,
      (∀ k : Nat, K ≤ k →
        listServices 2 ⟨[⟨1, "a", "", 0, 0⟩, ⟨2, "b", "", 0, 0⟩,
            ⟨3, "c", "", 0, 0⟩], []⟩ "" "" "" 2 ((k : Int) * 2) false =
          Except.ok []) ∧
      (∀ k : Nat, k < K →
        pageOf 2 ⟨[⟨1, "a", "", 0, 0⟩, ⟨2, "b", "", 0, 0⟩,
          ⟨3, "c", "", 0, 0⟩], []⟩ "" "" false 2 k ≠ []) ∧
      ((List.range K).flatMap
          (fun k => (pageOf 2 ⟨[⟨1, "a", "", 0, 0⟩, ⟨2, "b", "", 0, 0⟩,
            ⟨3, "c", "", 0, 0⟩], []⟩ "" "" false 2 k).map
            (fun s => s.id))).Perm
        ((⟨[⟨1, "a", "", 0, 0⟩, ⟨2, "b", "", 0, 0⟩, ⟨3, "c", "", 0, 0⟩],
          []⟩ : DB).services.map (fun r => r.id)) ∧
      ((List.range K).flatMap
          (fun k => (pageOf 2 ⟨[⟨1, "a", "", 0, 0⟩, ⟨2, "b", "", 0, 0⟩,
            ⟨3, "c", "", 0, 0⟩], []⟩ "" "" false 2 k).map
            (fun s => s.id))).Nodup :=
  listServices_pagination_complete 2 2
    ⟨[⟨1, "a", "", 0, 0⟩, ⟨2, "b", "", 0, 0⟩, ⟨3, "c", "", 0, 0⟩], []⟩
    "" "" false (by decide) (by decide) (by decide)

end KongCatalog
